import Mathlib

/-!
# Verification of the Expense Tracker CLI (src/Expense_Tracker.py)

Shallow embedding of the program's data model and operations, with the
numeric values of the Python program (floats holding decimal user input)
idealised as rationals, decimal text parsing (`float(...)`) and printing
(`str(...)`) modelled exactly on decimal numerals, and the file system and
standard input modelled as explicit state threaded through the operations.
-/

namespace ExpenseTracker

/-! ## Character-level text utilities (model Python `str.strip`, `str.split`, `str.lower`) -/

/-- The whitespace characters relevant to Python's default `str.strip`. -/
def isSpaceChar (c : Char) : Bool :=
  c = ' ' || c = '\t' || c = '\n' || c = '\r'

/-- Python `str.strip()` on a character list. -/
def trimChars (l : List Char) : List Char :=
  ((l.dropWhile isSpaceChar).reverse.dropWhile isSpaceChar).reverse

/-- Python `str.split(sep)` for a one-character separator: `"".split(",") = [""]`. -/
def splitOnChar (sep : Char) : List Char → List (List Char)
  | [] => [[]]
  | c :: rest =>
    match splitOnChar sep rest with
    | [] => [[]]
    | h :: t => if c = sep then [] :: h :: t else (c :: h) :: t

/-- Numeric value of a digit character. -/
def digitVal (c : Char) : ℕ := c.toNat - 48

/-- Value of a most-significant-first digit string. -/
def digitsVal (l : List Char) : ℕ := l.foldl (fun a c => 10 * a + digitVal c) 0

/-- Decimal digit characters of `n`, most significant first (`[]` for `0`);
the first argument is structural fuel. -/
def natDigitsAux : ℕ → ℕ → List Char
  | 0, _ => []
  | fuel + 1, n =>
    if n = 0 then [] else natDigitsAux fuel (n / 10) ++ [Nat.digitChar (n % 10)]

/-- Decimal digit characters of `n`, most significant first (`[]` for `0`). -/
def natChars (n : ℕ) : List Char := natDigitsAux n n

/-- Python `str` of a natural number. -/
def natStr (n : ℕ) : List Char := if n = 0 then ['0'] else natChars n

/-! ## Model of Python `float(...)`

`float` strips surrounding whitespace and accepts an optional sign followed
either by a decimal numeral `digits [. digits]` with at least one digit, or
by one of the case-insensitive special words `nan`, `inf`, `infinity`.
`pyFloat` below is the decimal-numeral fragment: it is the right model
wherever the program re-reads numerals it wrote itself (budget stores,
expense amounts in the CSV).  `pyFloatFull` further down extends it with
the special values, which matters for the interactive validation loops
where the user can type `nan` or `inf`.  (Exponents and digit-group
underscores remain outside the model.)  Failure (`none`) models Python's
`ValueError`. -/

/-- Parse an unsigned decimal numeral given its split at the first non-digit. -/
def parseUnsignedAux (ip : List Char) : List Char → Option ℚ
  | [] => if ip.isEmpty then none else some ((digitsVal ip : ℕ) : ℚ)
  | c :: frac =>
    if c = '.' && frac.all Char.isDigit && !(ip.isEmpty && frac.isEmpty) then
      some (((digitsVal ip : ℕ) : ℚ) + ((digitsVal frac : ℕ) : ℚ) / (10 : ℚ) ^ frac.length)
    else none

/-- Parse an unsigned decimal numeral. -/
def parseUnsigned (l : List Char) : Option ℚ :=
  parseUnsignedAux (l.takeWhile Char.isDigit) (l.dropWhile Char.isDigit)

/-- Parse an optionally signed decimal numeral (input already stripped). -/
def parseSigned : List Char → Option ℚ
  | [] => none
  | c :: rest =>
    if c = '-' then (parseUnsigned rest).map (fun v => -v)
    else if c = '+' then parseUnsigned rest
    else parseUnsigned (c :: rest)

/-- Model of Python `float(...)` on a character list. -/
def parseFloatChars (l : List Char) : Option ℚ := parseSigned (trimChars l)

/-- Model of Python `float(...)` on a string. -/
def pyFloat (s : String) : Option ℚ := parseFloatChars s.data

/-! ### The full float value language: special values

A Python float is a decimal number, a signed infinity, or NaN; NaN compares
false under every order test (`nan < 0` and `nan >= 0` are both `False`). -/

/-- A Python float value: a decimal number, a signed infinity, or NaN. -/
inductive PyVal
  | num (q : ℚ)
  | inf (neg : Bool)
  | nan
deriving DecidableEq, Repr

/-- Python `v < 0` on float values (NaN compares false). -/
def PyVal.ltZero : PyVal → Bool
  | .num q => q < 0
  | .inf neg => neg
  | .nan => false

/-- Python `v >= 0` on float values (NaN compares false). -/
def PyVal.geZero : PyVal → Bool
  | .num q => 0 ≤ q
  | .inf neg => !neg
  | .nan => false

/-- The case-insensitive special words accepted by `float()` (input already
stripped, sign already removed). -/
def parseSpecial (l : List Char) : Option PyVal :=
  let low := l.map Char.toLower
  if low = ['n', 'a', 'n'] then some .nan
  else if low = ['i', 'n', 'f'] || low = ['i', 'n', 'f', 'i', 'n', 'i', 't', 'y'] then
    some (.inf false)
  else none

/-- Model of Python `float(...)` on its full input language apart from
exponents and digit-group underscores: optionally signed decimal numerals
and the special words (`float("-nan")` is NaN, `float("-inf")` is the
negative infinity). -/
def parseFloatFull (l : List Char) : Option PyVal :=
  match trimChars l with
  | [] => none
  | c :: rest =>
    if c = '-' then
      match parseSpecial rest with
      | some (.inf _) => some (.inf true)
      | some v => some v
      | none => (parseUnsigned rest).map (fun v => .num (-v))
    else if c = '+' then
      match parseSpecial rest with
      | some v => some v
      | none => (parseUnsigned rest).map (fun v => .num v)
    else
      match parseSpecial (c :: rest) with
      | some v => some v
      | none => (parseUnsigned (c :: rest)).map (fun v => .num v)

/-- Model of Python `float(...)` with special values, on a string. -/
def pyFloatFull (s : String) : Option PyVal := parseFloatFull s.data

/-! ## Model of Python `str(...)` on floats holding decimal values

A float produced from decimal user input holds a decimal rational; Python's
`str` prints its shortest decimal form `int.frac` with at least one digit on
each side of the point (`str(5000.0) = "5000.0"`).  We print the exact decimal
digits of the rational, using the number of fractional digits given by the
2- and 5-adic valuations of the (reduced) denominator. -/

/-- Fueled exponent of `p` in `n` (number of times `p` divides `n`). -/
def padExpAux : ℕ → ℕ → ℕ → ℕ
  | 0, _, _ => 0
  | fuel + 1, p, n =>
    if 1 < p ∧ n ≠ 0 ∧ p ∣ n then padExpAux fuel p (n / p) + 1 else 0

/-- Exponent of `p` in `n`. -/
def padExp (p n : ℕ) : ℕ := padExpAux n p n

/-- Number of fractional digits needed for a denominator dividing a power of 10. -/
def kOf (den : ℕ) : ℕ := max (padExp 2 den) (padExp 5 den)

/-- The fractional digit block: `f` printed with exactly `k` digits
(at least one digit, as Python prints `".0"` for integral floats). -/
def fracStr (k f : ℕ) : List Char :=
  if k = 0 then ['0'] else List.replicate (k - (natChars f).length) '0' ++ natChars f

/-- The numerator scaled to `kOf` fractional digits. -/
def scaledOf (a : ℚ) : ℕ := a.num.toNat * 10 ^ kOf a.den / a.den

/-- Decimal digits of a nonnegative decimal rational, Python-`str` style. -/
def printNonneg (a : ℚ) : List Char :=
  natStr (scaledOf a / 10 ^ kOf a.den) ++ '.' :: fracStr (kOf a.den) (scaledOf a % 10 ^ kOf a.den)

/-- Model of Python `str(...)` on a float holding a decimal value (characters). -/
def pyStrChars (a : ℚ) : List Char :=
  if a < 0 then '-' :: printNonneg (-a) else printNonneg a

/-- Model of Python `str(...)` on a float holding a decimal value. -/
def pyStr (a : ℚ) : String := ⟨pyStrChars a⟩

/-! ## Digit lemmas -/

theorem digitVal_digitChar : ∀ d < 10, digitVal (Nat.digitChar d) = d := by decide

theorem isDigit_digitChar : ∀ d < 10, (Nat.digitChar d).isDigit = true := by decide

theorem digitsVal_append_singleton (A : List Char) (c : Char) :
    digitsVal (A ++ [c]) = 10 * digitsVal A + digitVal c := by
  simp [digitsVal, List.foldl_append]

theorem digitsVal_natDigitsAux : ∀ fuel n, n ≤ fuel → digitsVal (natDigitsAux fuel n) = n := by
  intro fuel
  induction fuel with
  | zero => intro n hn; interval_cases n; rfl
  | succ fuel ih =>
    intro n hn
    by_cases h0 : n = 0
    · simp [natDigitsAux, h0, digitsVal]
    · have hdiv : n / 10 ≤ fuel := by
        have : n / 10 < n := Nat.div_lt_self (Nat.pos_of_ne_zero h0) (by norm_num)
        omega
      rw [natDigitsAux, if_neg h0, digitsVal_append_singleton, ih _ hdiv,
        digitVal_digitChar _ (Nat.mod_lt _ (by norm_num))]
      omega

theorem digitsVal_natChars (n : ℕ) : digitsVal (natChars n) = n :=
  digitsVal_natDigitsAux n n le_rfl

theorem digitsVal_natStr (n : ℕ) : digitsVal (natStr n) = n := by
  by_cases h : n = 0
  · simp [natStr, h]; rfl
  · simp [natStr, h, digitsVal_natChars]

theorem isDigit_of_mem_natDigitsAux :
    ∀ fuel n c, c ∈ natDigitsAux fuel n → c.isDigit = true := by
  intro fuel
  induction fuel with
  | zero => intro n c hc; simp [natDigitsAux] at hc
  | succ fuel ih =>
    intro n c hc
    by_cases h0 : n = 0
    · simp [natDigitsAux, h0] at hc
    · rw [natDigitsAux, if_neg h0] at hc
      rcases List.mem_append.1 hc with h | h
      · exact ih _ _ h
      · simp at h
        exact h ▸ isDigit_digitChar _ (Nat.mod_lt _ (by norm_num))

theorem isDigit_of_mem_natChars {n : ℕ} {c : Char} (h : c ∈ natChars n) : c.isDigit = true :=
  isDigit_of_mem_natDigitsAux n n c h

theorem isDigit_of_mem_natStr {n : ℕ} {c : Char} (h : c ∈ natStr n) : c.isDigit = true := by
  by_cases h0 : n = 0
  · simp [natStr, h0] at h; subst h; decide
  · rw [natStr, if_neg h0] at h; exact isDigit_of_mem_natChars h

theorem natStr_ne_nil (n : ℕ) : natStr n ≠ [] := by
  by_cases h0 : n = 0
  · simp [natStr, h0]
  · rw [natStr, if_neg h0]
    intro h
    have := digitsVal_natChars n
    rw [h] at this
    exact h0 (by simpa [digitsVal] using this.symm)

theorem length_natDigitsAux_le :
    ∀ fuel n k, n ≤ fuel → n < 10 ^ k → (natDigitsAux fuel n).length ≤ k := by
  intro fuel
  induction fuel with
  | zero => intro n k hn _; interval_cases n; simp [natDigitsAux]
  | succ fuel ih =>
    intro n k hn hk
    by_cases h0 : n = 0
    · simp [natDigitsAux, h0]
    · rw [natDigitsAux, if_neg h0]
      have hkpos : k ≠ 0 := by
        rintro rfl
        simp at hk
        omega
      have hdiv1 : n / 10 ≤ fuel := by
        have : n / 10 < n := Nat.div_lt_self (Nat.pos_of_ne_zero h0) (by norm_num)
        omega
      have hdiv2 : n / 10 < 10 ^ (k - 1) := by
        rw [Nat.div_lt_iff_lt_mul (by norm_num)]
        calc n < 10 ^ k := hk
        _ = 10 ^ (k - 1) * 10 := by
              rw [← pow_succ]
              congr 1
              omega
      have := ih (n / 10) (k - 1) hdiv1 hdiv2
      simp only [List.length_append, List.length_singleton]
      omega

theorem length_natChars_le {n k : ℕ} (h : n < 10 ^ k) : (natChars n).length ≤ k :=
  length_natDigitsAux_le n n k le_rfl h

theorem digitsVal_replicate_zero (z : ℕ) (l : List Char) :
    digitsVal (List.replicate z '0' ++ l) = digitsVal l := by
  induction z with
  | zero => simp
  | succ z ih =>
    rw [List.replicate_succ]
    simpa [digitsVal] using ih

theorem digitsVal_fracStr {k f : ℕ} (hk : k ≠ 0) :
    digitsVal (fracStr k f) = f := by
  rw [fracStr, if_neg hk, digitsVal_replicate_zero, digitsVal_natChars]

theorem length_fracStr {k f : ℕ} (hk : k ≠ 0) (hf : f < 10 ^ k) :
    (fracStr k f).length = k := by
  rw [fracStr, if_neg hk]
  have := length_natChars_le hf
  simp only [List.length_append, List.length_replicate]
  omega

theorem isDigit_of_mem_fracStr {k f : ℕ} {c : Char} (h : c ∈ fracStr k f) :
    c.isDigit = true := by
  by_cases hk : k = 0
  · simp [fracStr, hk] at h; subst h; decide
  · rw [fracStr, if_neg hk] at h
    rcases List.mem_append.1 h with h | h
    · have := List.eq_of_mem_replicate h
      subst this; decide
    · exact isDigit_of_mem_natChars h

/-! ## Valuation lemmas: denominators dividing a power of 10 -/

theorem padExpAux_spec :
    ∀ fuel p n, 1 < p → n ≠ 0 → n ≤ fuel →
      ∃ m, n = p ^ padExpAux fuel p n * m ∧ ¬ p ∣ m := by
  intro fuel
  induction fuel with
  | zero => intro n p h1 h0 hn; omega
  | succ fuel ih =>
    intro p n h1 h0 hn
    by_cases hd : p ∣ n
    · rw [padExpAux, if_pos ⟨h1, h0, hd⟩]
      have hq0 : n / p ≠ 0 := by
        intro h
        rcases hd with ⟨c, rfl⟩
        rw [Nat.mul_div_cancel_left _ (by omega)] at h
        subst h
        simp at h0
      have hqle : n / p ≤ fuel := by
        have : n / p < n := Nat.div_lt_self (Nat.pos_of_ne_zero h0) h1
        omega
      obtain ⟨m, hm, hpm⟩ := ih p (n / p) h1 hq0 hqle
      refine ⟨m, ?_, hpm⟩
      rw [pow_succ]
      calc n = p * (n / p) := (Nat.mul_div_cancel' hd).symm
      _ = p * (p ^ padExpAux fuel p (n / p) * m) := congrArg (fun x => p * x) hm
      _ = p ^ padExpAux fuel p (n / p) * p * m := by ring
    · rw [padExpAux, if_neg (by tauto)]
      exact ⟨n, by simp, hd⟩

theorem padExp_spec {p n : ℕ} (h1 : 1 < p) (h0 : n ≠ 0) :
    ∃ m, n = p ^ padExp p n * m ∧ ¬ p ∣ m :=
  padExpAux_spec n p n h1 h0 le_rfl

theorem padExpAux_pow_mul :
    ∀ fuel p j m, 1 < p → ¬ p ∣ m → p ^ j * m ≤ fuel →
      padExpAux fuel p (p ^ j * m) = j := by
  intro fuel
  induction fuel with
  | zero =>
    intro p j m h1 hm hle
    have hm0 : m ≠ 0 := by rintro rfl; exact hm (dvd_zero p)
    have : p ^ j * m ≠ 0 := by positivity
    omega
  | succ fuel ih =>
    intro p j m h1 hm hle
    have hm0 : m ≠ 0 := by rintro rfl; exact hm (dvd_zero p)
    match j with
    | 0 =>
      rw [padExpAux, if_neg]
      rintro ⟨-, -, hd⟩
      simp at hd
      exact hm hd
    | j + 1 =>
      have hne : p ^ (j + 1) * m ≠ 0 := by positivity
      have hdvd : p ∣ p ^ (j + 1) * m := Dvd.dvd.mul_right (dvd_pow_self p (by omega)) m
      rw [padExpAux, if_pos ⟨h1, hne, hdvd⟩]
      have hdiveq : p ^ (j + 1) * m / p = p ^ j * m := by
        rw [pow_succ, mul_comm (p ^ j) p, mul_assoc, Nat.mul_div_cancel_left _ (by omega)]
      rw [hdiveq, ih p j m h1 hm]
      have : p ^ j * m < p ^ (j + 1) * m := by
        have hpj : p ^ j < p ^ (j + 1) := pow_lt_pow_right₀ h1 (by omega)
        exact Nat.mul_lt_mul_of_lt_of_le hpj le_rfl (Nat.pos_of_ne_zero hm0)
      omega

theorem padExp_pow_mul {p j m : ℕ} (h1 : 1 < p) (hm : ¬ p ∣ m) :
    padExp p (p ^ j * m) = j :=
  padExpAux_pow_mul (p ^ j * m) p j m h1 hm le_rfl

/-- A denominator dividing some power of 10 divides `10 ^ kOf den`. -/
theorem dvd_ten_pow_kOf {n K : ℕ} (h0 : n ≠ 0) (h : n ∣ 10 ^ K) : n ∣ 10 ^ kOf n := by
  obtain ⟨m, hm, h2m⟩ := padExp_spec (p := 2) (n := n) (by norm_num) h0
  have hm0 : m ≠ 0 := by rintro rfl; exact h2m (dvd_zero 2)
  have hmn : m ∣ n := by
    refine ⟨2 ^ padExp 2 n, ?_⟩
    calc n = 2 ^ padExp 2 n * m := hm
    _ = m * 2 ^ padExp 2 n := mul_comm _ _
  have hmdvd : m ∣ 10 ^ K := hmn.trans h
  have hten : (10 : ℕ) ^ K = 2 ^ K * 5 ^ K := by rw [← mul_pow]; norm_num
  have hcop2 : Nat.Coprime m (2 ^ K) :=
    (((Nat.prime_two.coprime_iff_not_dvd).2 h2m).symm).pow_right K
  have hm5 : m ∣ 5 ^ K := by
    rw [hten, mul_comm] at hmdvd
    exact (Nat.Coprime.dvd_of_dvd_mul_right hcop2) hmdvd
  obtain ⟨r, hr, h5r⟩ := padExp_spec (p := 5) (n := m) (by norm_num) hm0
  have hprime5 : Nat.Prime 5 := by norm_num
  have hrm : r ∣ m := by
    refine ⟨5 ^ padExp 5 m, ?_⟩
    calc m = 5 ^ padExp 5 m * r := hr
    _ = r * 5 ^ padExp 5 m := mul_comm _ _
  have hr1 : r = 1 :=
    Nat.Coprime.eq_one_of_dvd (((hprime5.coprime_iff_not_dvd).2 h5r).symm.pow_right K)
      (hrm.trans hm5)
  have hm5' : m = 5 ^ padExp 5 m := by
    calc m = 5 ^ padExp 5 m * r := hr
    _ = 5 ^ padExp 5 m * 1 := by rw [hr1]
    _ = 5 ^ padExp 5 m := mul_one _
  have hn2 : n = 2 ^ padExp 2 n * 5 ^ padExp 5 m := by
    calc n = 2 ^ padExp 2 n * m := hm
    _ = 2 ^ padExp 2 n * 5 ^ padExp 5 m := by rw [← hm5']
  have hv5 : padExp 5 n = padExp 5 m := by
    conv_lhs => rw [hn2]
    rw [mul_comm (2 ^ padExp 2 n) (5 ^ padExp 5 m)]
    refine padExp_pow_mul (by norm_num) ?_
    intro hd
    have := hprime5.dvd_of_dvd_pow hd
    norm_num at this
  unfold kOf
  rw [hv5]
  conv_lhs => rw [hn2]
  have h10 : (10 : ℕ) ^ max (padExp 2 n) (padExp 5 m) =
      2 ^ max (padExp 2 n) (padExp 5 m) * 5 ^ max (padExp 2 n) (padExp 5 m) := by
    rw [← mul_pow]; norm_num
  rw [h10]
  exact Nat.mul_dvd_mul (pow_dvd_pow 2 (le_max_left _ _)) (pow_dvd_pow 5 (le_max_right _ _))

/-! ## takeWhile / dropWhile / trim lemmas -/

theorem takeWhile_append_cons {p : Char → Bool} {A : List Char} (b : Char) (B : List Char)
    (hA : ∀ a ∈ A, p a = true) (hb : p b = false) :
    (A ++ b :: B).takeWhile p = A := by
  induction A with
  | nil =>
    rw [List.nil_append, List.takeWhile_cons_of_neg (by simp [hb])]
  | cons a A ih =>
    have ha := hA a (by simp)
    rw [List.cons_append, List.takeWhile_cons_of_pos ha,
      ih (fun x hx => hA x (by simp [hx]))]

theorem dropWhile_append_cons {p : Char → Bool} {A : List Char} (b : Char) (B : List Char)
    (hA : ∀ a ∈ A, p a = true) (hb : p b = false) :
    (A ++ b :: B).dropWhile p = b :: B := by
  induction A with
  | nil =>
    rw [List.nil_append, List.dropWhile_cons_of_neg (by simp [hb])]
  | cons a A ih =>
    have ha := hA a (by simp)
    rw [List.cons_append, List.dropWhile_cons_of_pos ha]
    exact ih (fun x hx => hA x (by simp [hx]))

theorem dropWhile_of_all_neg {p : Char → Bool} {A : List Char} (hA : ∀ a ∈ A, p a = false) :
    A.dropWhile p = A := by
  cases A with
  | nil => rfl
  | cons a A => simp [List.dropWhile, hA a (by simp)]

theorem trimChars_of_no_space {l : List Char} (h : ∀ c ∈ l, isSpaceChar c = false) :
    trimChars l = l := by
  rw [trimChars, dropWhile_of_all_neg h, dropWhile_of_all_neg (by simp only [List.mem_reverse]; exact h),
    List.reverse_reverse]

/-! ## Character classification facts -/

theorem isDigit_not_space {c : Char} (h : c.isDigit = true) : isSpaceChar c = false := by
  rw [isSpaceChar]
  simp only [Bool.or_eq_false_iff, decide_eq_false_iff_not]
  refine ⟨⟨⟨?_, ?_⟩, ?_⟩, ?_⟩ <;> rintro rfl <;> simp [Char.isDigit] at h

theorem isDigit_ne_dash {c : Char} (h : c.isDigit = true) : c ≠ '-' := by
  rintro rfl; simp [Char.isDigit] at h

theorem isDigit_ne_plus {c : Char} (h : c.isDigit = true) : c ≠ '+' := by
  rintro rfl; simp [Char.isDigit] at h

theorem isDigit_ne_dot {c : Char} (h : c.isDigit = true) : c ≠ '.' := by
  rintro rfl; simp [Char.isDigit] at h

theorem isDigit_ne_comma {c : Char} (h : c.isDigit = true) : c ≠ ',' := by
  rintro rfl; simp [Char.isDigit] at h

theorem isDigit_ne_newline {c : Char} (h : c.isDigit = true) : c ≠ '\n' := by
  rintro rfl; simp [Char.isDigit] at h

/-- Every character of `printNonneg a` is a digit or the decimal point. -/
theorem mem_printNonneg {a : ℚ} {c : Char} (h : c ∈ printNonneg a) :
    c.isDigit = true ∨ c = '.' := by
  rw [printNonneg] at h
  rcases List.mem_append.1 h with h | h
  · exact Or.inl (isDigit_of_mem_natStr h)
  · rcases List.mem_cons.1 h with h | h
    · exact Or.inr h
    · exact Or.inl (isDigit_of_mem_fracStr h)

theorem printNonneg_no_space {a : ℚ} : ∀ c ∈ printNonneg a, isSpaceChar c = false := by
  intro c hc
  rcases mem_printNonneg hc with h | h
  · exact isDigit_not_space h
  · subst h; decide

/-! ## The parse–print round trip -/

theorem parseUnsigned_printNonneg {a : ℚ} (ha : 0 ≤ a)
    (hd : (a.den : ℕ) ∣ 10 ^ kOf a.den) :
    parseUnsigned (printNonneg a) = some a := by
  set k := kOf a.den with hk
  set N := a.num.toNat with hN
  set D := a.den with hD
  set S := scaledOf a with hS
  have hDpos : 0 < D := a.pos
  have hnum : (a.num : ℤ) = (N : ℤ) := by
    rw [hN, Int.toNat_of_nonneg (Rat.num_nonneg.2 ha)]
  have hDdvd : D ∣ N * 10 ^ k := Dvd.dvd.mul_left hd N
  have hkey : S * D = N * 10 ^ k := by
    rw [hS, scaledOf, ← hN, ← hD, ← hk]
    exact Nat.div_mul_cancel hDdvd
  have hip : ∀ c ∈ natStr (S / 10 ^ k), Char.isDigit c = true := fun c hc =>
    isDigit_of_mem_natStr hc
  have hprint : printNonneg a = natStr (S / 10 ^ k) ++ '.' :: fracStr k (S % 10 ^ k) := by
    rw [printNonneg, ← hS, ← hk]
  have hdot : Char.isDigit '.' = false := by decide
  rw [parseUnsigned, hprint, takeWhile_append_cons _ _ hip hdot,
    dropWhile_append_cons _ _ hip hdot, parseUnsignedAux]
  have hfracdig : (fracStr k (S % 10 ^ k)).all Char.isDigit = true := by
    rw [List.all_eq_true]
    exact fun c hc => isDigit_of_mem_fracStr hc
  have hipne : (natStr (S / 10 ^ k)).isEmpty = false := by
    rw [List.isEmpty_eq_false_iff_exists_mem]
    cases hng : natStr (S / 10 ^ k) with
    | nil => exact absurd hng (natStr_ne_nil _)
    | cons x xs => exact ⟨x, by simp⟩
  rw [if_pos]
  swap
  · simp [hfracdig, hipne]
  -- value computation
  rw [digitsVal_natStr]
  by_cases hk0 : k = 0
  · -- denominator 1: integral value, fractional block is "0"
    have hD1 : D = 1 := by
      rw [hk0] at hd
      simpa using hd
    have hSN : S = N := by
      have : S * D = N * 10 ^ 0 := by rw [← hk0]; exact hkey
      simpa [hD1] using this
    have haN : a = (N : ℚ) := by
      have hnd := Rat.num_div_den a
      rw [← hnd, hnum, ← hD, hD1]
      push_cast
      simp
    rw [hk0, hSN]
    simp [fracStr, digitsVal, digitVal, haN]
  · have hfr : S % 10 ^ k < 10 ^ k := Nat.mod_lt _ (by positivity)
    rw [digitsVal_fracStr hk0, length_fracStr hk0 hfr]
    have hpow : ((10 : ℚ) ^ k) ≠ 0 := by positivity
    have hda : a = (S : ℚ) / (10 : ℚ) ^ k := by
      have hcast : (S : ℚ) * (D : ℚ) = (N : ℚ) * (10 : ℚ) ^ k := by
        exact_mod_cast congrArg (fun x : ℕ => (x : ℚ)) hkey
      have hden : ((D : ℕ) : ℚ) ≠ 0 := by positivity
      have := Rat.num_div_den a
      rw [hnum] at this
      push_cast at this
      rw [← this]
      rw [div_eq_div_iff hden hpow]
      calc (N : ℚ) * (10 : ℚ) ^ k = (S : ℚ) * (D : ℚ) := hcast.symm
      _ = (S : ℚ) * (D : ℚ) := rfl
    rw [hda]
    have hmod : ((10 : ℚ) ^ k) * ((S / 10 ^ k : ℕ) : ℚ) + ((S % 10 ^ k : ℕ) : ℚ) = (S : ℚ) := by
      exact_mod_cast congrArg (fun x : ℕ => (x : ℚ)) (Nat.div_add_mod S (10 ^ k))
    have : ((S / 10 ^ k : ℕ) : ℚ) + ((S % 10 ^ k : ℕ) : ℚ) / (10 : ℚ) ^ k =
        (S : ℚ) / (10 : ℚ) ^ k := by
      field_simp
      linarith [hmod]
    rw [this]

theorem parseFloatChars_pyStrChars {a : ℚ} (hd : (a.den : ℕ) ∣ 10 ^ kOf a.den) :
    parseFloatChars (pyStrChars a) = some a := by
  by_cases hneg : a < 0
  · have hnden : ((-a).den : ℕ) = a.den := Rat.neg_den a
    have hpos : 0 ≤ -a := by linarith
    rw [pyStrChars, if_pos hneg, parseFloatChars]
    have htrim : trimChars ('-' :: printNonneg (-a)) = '-' :: printNonneg (-a) := by
      refine trimChars_of_no_space ?_
      intro c hc
      rcases List.mem_cons.1 hc with h | h
      · subst h; decide
      · exact printNonneg_no_space _ h
    rw [htrim, parseSigned, if_pos rfl,
      parseUnsigned_printNonneg hpos (by rw [hnden]; exact hd)]
    simp
  · have hpos : 0 ≤ a := by linarith
    rw [pyStrChars, if_neg hneg, parseFloatChars,
      trimChars_of_no_space printNonneg_no_space]
    obtain ⟨c, cs, hcs⟩ : ∃ c cs, printNonneg a = c :: cs := by
      cases hng : printNonneg a with
      | nil =>
        exfalso
        have := natStr_ne_nil (scaledOf a / 10 ^ kOf a.den)
        rw [printNonneg] at hng
        rcases List.append_eq_nil.1 hng with ⟨h1, -⟩
        exact this h1
      | cons x xs => exact ⟨x, xs, rfl⟩
    have hcdig : c.isDigit = true := by
      have : c ∈ printNonneg a := by rw [hcs]; simp
      rcases mem_printNonneg this with h | h
      · exact h
      · exfalso
        rw [printNonneg] at hcs
        cases hng : natStr (scaledOf a / 10 ^ kOf a.den) with
        | nil => exact natStr_ne_nil _ hng
        | cons y ys =>
          rw [hng] at hcs
          simp only [List.cons_append, List.cons.injEq] at hcs
          have hy : y.isDigit = true := isDigit_of_mem_natStr (by rw [hng]; simp)
          rw [hcs.1, h] at hy
          simp [Char.isDigit] at hy
    rw [hcs, parseSigned, if_neg (isDigit_ne_dash hcdig), if_neg (isDigit_ne_plus hcdig),
      ← hcs]
    exact parseUnsigned_printNonneg hpos hd

/-- The round trip on strings: parsing back a printed decimal float recovers it. -/
theorem pyFloat_pyStr {a : ℚ} (hd : (a.den : ℕ) ∣ 10 ^ kOf a.den) :
    pyFloat (pyStr a) = some a :=
  parseFloatChars_pyStrChars hd

/-- Every value produced by the float parser is a decimal rational. -/
theorem parseUnsigned_den_dvd {l : List Char} {a : ℚ} (h : parseUnsigned l = some a) :
    (a.den : ℕ) ∣ 10 ^ kOf a.den := by
  rw [parseUnsigned] at h
  rcases hdw : l.dropWhile Char.isDigit with _ | ⟨c, frac⟩ <;> rw [hdw, parseUnsignedAux] at h
  · split at h
    · exact Option.noConfusion h
    · have ha : a = ((digitsVal (l.takeWhile Char.isDigit) : ℕ) : ℚ) := by
        injection h with h
        exact h.symm
      rw [ha, Rat.den_natCast]
      simp
  · split at h
    · injection h with h
      set i := digitsVal (l.takeWhile Char.isDigit) with hi
      set f := digitsVal frac with hf
      set L := frac.length with hL
      have hpow : ((10 : ℚ) ^ L) ≠ 0 := by positivity
      have hval : a = ((i * 10 ^ L + f : ℕ) : ℚ) / ((10 ^ L : ℕ) : ℚ) := by
        rw [← h]
        push_cast
        field_simp
      have hdvd := Rat.den_dvd ((i * 10 ^ L + f : ℕ) : ℤ) ((10 ^ L : ℕ) : ℤ)
      rw [Rat.divInt_eq_div] at hdvd
      have hcast : (((i * 10 ^ L + f : ℕ) : ℤ) : ℚ) / (((10 ^ L : ℕ) : ℤ) : ℚ) = a := by
        rw [hval]
        push_cast
        ring
      rw [hcast] at hdvd
      have hdd : (a.den : ℕ) ∣ 10 ^ L := by exact_mod_cast hdvd
      exact dvd_ten_pow_kOf a.den_nz hdd
    · exact Option.noConfusion h

theorem parseFloatChars_den_dvd {l : List Char} {a : ℚ} (h : parseFloatChars l = some a) :
    (a.den : ℕ) ∣ 10 ^ kOf a.den := by
  rw [parseFloatChars] at h
  rcases htr : trimChars l with _ | ⟨c, rest⟩ <;> rw [htr] at h
  · exact Option.noConfusion (show (none : Option ℚ) = some a from h)
  · rw [parseSigned] at h
    split at h
    · rcases hpu : parseUnsigned rest with _ | v <;> rw [hpu] at h
      · exact absurd h (by simp)
      · have hv := parseUnsigned_den_dvd hpu
        have hav : a = -v := by
          have h2 : some (-v) = some a := h
          injection h2 with h2
          exact h2.symm
        subst hav
        rw [Rat.neg_den]
        exact hv
    · split at h
      · exact parseUnsigned_den_dvd h
      · exact parseUnsigned_den_dvd h

theorem pyFloat_den_dvd {s : String} {a : ℚ} (h : pyFloat s = some a) :
    (a.den : ℕ) ∣ 10 ^ kOf a.den :=
  parseFloatChars_den_dvd h

/-! ## Dates and the Gregorian calendar (models `datetime.date` and `calendar.monthrange`) -/

/-- A calendar date (`datetime.date`): month is 1-based, day is 1-based. -/
structure Date where
  year : ℕ
  month : ℕ
  day : ℕ
deriving DecidableEq, Repr

/-- Gregorian leap-year rule. -/
def isLeap (y : ℕ) : Bool :=
  (y % 4 = 0 && y % 100 ≠ 0) || y % 400 = 0

/-- `calendar.monthrange(y, m)[1]`: the number of days in the month. -/
def daysInMonth (y m : ℕ) : ℕ :=
  if m = 2 then (if isLeap y then 29 else 28)
  else if m = 4 ∨ m = 6 ∨ m = 9 ∨ m = 11 then 30
  else 31

/-- Decimal digits of `n` left-padded with zeros to width 2 (Python `:02d`). -/
def pad2 (n : ℕ) : List Char :=
  List.replicate (2 - (natStr n).length) '0' ++ natStr n

/-- Decimal digits of `n` left-padded with zeros to width 4 (ISO year field). -/
def pad4 (n : ℕ) : List Char :=
  List.replicate (4 - (natStr n).length) '0' ++ natStr n

/-- `month_label`: a label like `"2025-06"`. -/
def month_label (d : Date) : String :=
  ⟨natStr d.year ++ '-' :: pad2 d.month⟩

/-- `expense_file_for`: path of this month's expenses CSV. -/
def expense_file_for (d : Date) : String :=
  "expenses_" ++ month_label d ++ ".csv"

/-- `budget_file_for`: path of this month's budget TXT. -/
def budget_file_for (d : Date) : String :=
  "budget_" ++ month_label d ++ ".txt"

/-- `today.replace(day=1) - datetime.timedelta(days=1)`: the last day of the
previous month. -/
def prevMonthDate (d : Date) : Date :=
  if d.month = 1 then ⟨d.year - 1, 12, 31⟩
  else ⟨d.year, d.month - 1, daysInMonth d.year (d.month - 1)⟩

/-- `str(datetime.date)`: ISO `YYYY-MM-DD`. -/
def dateStr (d : Date) : String :=
  ⟨pad4 d.year ++ '-' :: (pad2 d.month ++ '-' :: pad2 d.day)⟩

/-! ## The file system and console state -/

/-- The file store: an association list from path to full text content.
A missing key models a nonexistent file. -/
abbrev FS : Type := List (String × String)

/-- Read a file (`Path.read_text` / `Path.open`): `none` when the file does not exist. -/
def FS.read (fs : FS) (p : String) : Option String :=
  (List.find? (fun e => e.1 = p) fs).map (fun e => e.2)

/-- Write (create or overwrite) a file (`Path.write_text`). -/
def FS.write (fs : FS) (p c : String) : FS :=
  (p, c) :: List.filter (fun e => e.1 ≠ p) fs

theorem FS.read_write (fs : FS) (p c : String) : (fs.write p c).read p = some c := by
  simp [FS.read, FS.write, List.find?]

/-! ## Python line iteration and small string helpers -/

/-- Iterating a text file line by line (with the line terminators stripped):
splitting at `'\n'` drops a final empty chunk, as Python file iteration
yields no empty final line for newline-terminated content. -/
def pyLines (s : String) : List String :=
  let parts := splitOnChar '\n' s.data
  (if parts.getLast? = some [] then parts.dropLast else parts).map fun l => (⟨l⟩ : String)

/-- Python `str.strip()`. -/
def pyStrip (s : String) : String := ⟨trimChars s.data⟩

/-- Python `str.lower()`. -/
def pyLower (s : String) : String := ⟨s.data.map Char.toLower⟩

/-- `input(...).strip().lower() == "y"`: the program's yes test. -/
def isYes (ans : String) : Bool := pyLower (pyStrip ans) = "y"

/-! ## Data model: `Expense` and the category catalog -/

/-- Single expense record (class `Expense`). -/
structure Expense where
  name : String
  category : String
  amount : ℚ
deriving DecidableEq, Repr

/-- `EXPENSE_CATEGORIES`: the closed catalog of category names (display
symbols omitted: they never influence the computations). -/
def EXPENSE_CATEGORIES : List String :=
  ["Food", "Transport", "Home", "Utilities", "Groceries", "Entertainment",
   "Health", "Education", "Shopping", "Work", "Travel", "Miscellaneous"]

/-! ## Budget management: `load_or_create_budget`

The interactive run is modelled by the list of pending standard-input lines.
A result of `none` models a run that does not return normally: an uncaught
`ValueError` from `float(...)` on a malformed stored budget, or input
exhausted while a validation loop is still re-prompting (the real program
would block forever).  A successful result carries the resolved value, the
file system after the call, the remaining input, and how many prompts
(`input(...)` calls) the call performed. -/

/-- Result of one `load_or_create_budget` call. -/
structure ResolveResult where
  value : ℚ
  fs : FS
  stdin : List String
  prompts : ℕ
deriving DecidableEq

/-- The fresh-budget validation loop (lines 84–94): parse a float, re-prompt
on `ValueError` or a negative value.  Returns the accepted value, the
remaining input and the number of prompts used. -/
def budgetLoop : List String → Option (ℚ × List String × ℕ)
  | [] => none
  | s :: rest =>
    match pyFloat s with
    | some v =>
      if v < 0 then (budgetLoop rest).map (fun r => (r.1, r.2.1, r.2.2 + 1))
      else some (v, rest, 1)
    | none => (budgetLoop rest).map (fun r => (r.1, r.2.1, r.2.2 + 1))

/-- `load_or_create_budget(today)` (lines 56–96). -/
def load_or_create_budget (today : Date) (fs : FS) (stdin : List String) :
    Option ResolveResult :=
  let path := budget_file_for today
  match fs.read path with
  | some text =>
    -- 1. Already have a budget for this month
    (pyFloat (pyStrip text)).map (fun v => ⟨v, fs, stdin, 0⟩)
  | none =>
    -- 2. Maybe reuse last month's budget?
    match fs.read (budget_file_for (prevMonthDate today)), today.day == 1 with
    | some ptext, true =>
      match pyFloat (pyStrip ptext) with
      | none => none          -- float() raises on the stored text: fatal
      | some pv =>
        match stdin with
        | [] => none          -- input() blocks with no pending line
        | ans :: rest =>
          if isYes ans then some ⟨pv, fs.write path (pyStr pv), rest, 1⟩
          else
            -- 3. Ask for a fresh budget (one prompt already used on the answer)
            (budgetLoop rest).map fun r => ⟨r.1, fs.write path (pyStr r.1), r.2.1, r.2.2 + 1⟩
    | _, _ =>
      -- 3. Ask for a fresh budget
      (budgetLoop stdin).map fun r => ⟨r.1, fs.write path (pyStr r.1), r.2.1, r.2.2⟩

/-! ## Expense entry: the amount validation loop of `get_user_expense` -/

/-- The amount validation loop (lines 107–115): same shape as the budget loop. -/
def amountLoop : List String → Option (ℚ × List String × ℕ)
  | [] => none
  | s :: rest =>
    match pyFloat s with
    | some v =>
      if v < 0 then (amountLoop rest).map (fun r => (r.1, r.2.1, r.2.2 + 1))
      else some (v, rest, 1)
    | none => (amountLoop rest).map (fun r => (r.1, r.2.1, r.2.2 + 1))

/-- The fresh-budget validation loop (lines 84–94) over the full float input
language: `float(input)` may also yield NaN or an infinity, and the
rejection test is Python's `new_budget < 0`, which NaN fails to trigger. -/
def budgetLoopFull : List String → Option (PyVal × List String × ℕ)
  | [] => none
  | s :: rest =>
    match pyFloatFull s with
    | some v =>
      if v.ltZero then (budgetLoopFull rest).map (fun r => (r.1, r.2.1, r.2.2 + 1))
      else some (v, rest, 1)
    | none => (budgetLoopFull rest).map (fun r => (r.1, r.2.1, r.2.2 + 1))

/-- The amount validation loop (lines 107–115) over the full float input
language. -/
def amountLoopFull : List String → Option (PyVal × List String × ℕ)
  | [] => none
  | s :: rest =>
    match pyFloatFull s with
    | some v =>
      if v.ltZero then (amountLoopFull rest).map (fun r => (r.1, r.2.1, r.2.2 + 1))
      else some (v, rest, 1)
    | none => (amountLoopFull rest).map (fun r => (r.1, r.2.1, r.2.2 + 1))

/-! ## Ledger append: `save_expense` -/

/-- The CSV line written for one expense: `date,name,amount,category`. -/
def expenseLine (exp : Expense) (today : Date) : String :=
  dateStr today ++ "," ++ exp.name ++ "," ++ pyStr exp.amount ++ "," ++ exp.category

/-- `save_expense(exp, file_path)` (lines 131–137): append one CSV row,
dating it with the run's current date. -/
def save_expense (exp : Expense) (today : Date) (fs : FS) (path : String) : FS :=
  fs.write path (((fs.read path).getD "") ++ expenseLine exp today ++ "\n")

/-! ## Ledger read and aggregation: `summarize` -/

/-- Parse one stored line (lines 179–183): strip the line, split at commas,
require exactly four fields, and parse the amount with `float`.  `none`
models the caught `ValueError` (line skipped with a warning). -/
def parseLine (line : String) : Option Expense :=
  match splitOnChar ',' (trimChars line.data) with
  | [_date, n, a, c] => (parseFloatChars a).map fun v => ⟨⟨n⟩, ⟨c⟩, v⟩
  | _ => none

/-- The read loop (lines 176–183): parsed records in order, and the skipped
(malformed) lines in order. -/
def readLoop : List String → List Expense × List String
  | [] => ([], [])
  | l :: ls =>
    let r := readLoop ls
    match parseLine l with
    | some e => (e :: r.1, r.2)
    | none => (r.1, l :: r.2)

/-- One step of the aggregation loop (lines 186–187):
`amount_by_cat[cat] = amount_by_cat.get(cat, 0) + amt`, keeping dict
insertion order (first occurrence first). -/
def upsert (acc : List (String × ℚ)) (e : Expense) : List (String × ℚ) :=
  if acc.any (fun p => p.1 = e.category) then
    acc.map (fun p => if p.1 = e.category then (p.1, p.2 + e.amount) else p)
  else acc ++ [(e.category, e.amount)]

/-- `amount_by_cat` (lines 185–187). -/
def aggregate (es : List Expense) : List (String × ℚ) := es.foldl upsert []

/-- `total_spent = sum(exp.amount for exp in expenses)` (line 189). -/
def totalSpent (es : List Expense) : ℚ := (es.map (fun e => e.amount)).sum

/-- The printed per-category percentages (lines 195–199).  Line 196 first
computes the dead budget-relative value `(amt / budget) * 100` whenever
`total_spent` is truthy — with `budget = 0` that raises `ZeroDivisionError`,
modelled by `none`.  Line 197 then overwrites it with the spending-relative
percentage actually printed. -/
def catPcts (abc : List (String × ℚ)) (total budget : ℚ) : Option (List (String × ℚ)) :=
  abc.mapM fun p =>
    if total ≠ 0 then
      if budget = 0 then none else some (p.1, p.2 / total * 100)
    else some (p.1, 0)

set_option linter.unusedVariables false in
/-- `visual_summary` (lines 143–167), reduced to the data of the pie chart:
the labels and the slice sizes, built by the loop of lines 151–155 starting
from the `"Remaining"` slice.  The `total_spent` argument is passed by the
caller but never used, exactly as in the source. -/
def visual_summary (amount_by_cat : List (String × ℚ))
    (total_spent remaining_percent budget : ℚ) : List String × List ℚ :=
  amount_by_cat.foldl
    (fun acc p =>
      (acc.1 ++ [p.1], acc.2 ++ [if budget ≠ 0 then p.2 / budget * 100 else 0]))
    (["Remaining"], [remaining_percent])

/-- Everything `summarize` computes and prints for a non-empty store. -/
structure Report where
  records : List Expense
  skipped : List String
  amount_by_cat : List (String × ℚ)
  pcts : List (String × ℚ)
  total_spent : ℚ
  remaining : ℚ
  remaining_pct : ℚ
  days_left : ℕ
  daily : ℚ
  pie : Option (List String × List ℚ)
deriving DecidableEq

/-- Outcome of `summarize`: early return on a missing/empty store, an
uncaught `ZeroDivisionError`, or a complete report. -/
inductive SummarizeResult
  | empty
  | zeroDivError
  | report (rep : Report)
deriving DecidableEq

/-- `summarize` on the content of an existing, non-empty store
(lines 176–211); `today` is `datetime.date.today()` at line 204 and `stdin`
holds the pending console input for the pie-chart question. -/
def summarizeContent (content : String) (budget : ℚ) (today : Date)
    (stdin : List String) : SummarizeResult :=
  let r := readLoop (pyLines content)
  let abc := aggregate r.1
  let total := totalSpent r.1
  let remaining := budget - total
  let remaining_pct := if budget ≠ 0 then remaining / budget * 100 else 0
  match catPcts abc total budget with
  | none => .zeroDivError
  | some pcts =>
    let days_left := daysInMonth today.year today.month - today.day
    let daily := if days_left ≠ 0 then remaining / (days_left : ℚ) else 0
    let pie :=
      match stdin with
      | ans :: _ =>
        if isYes ans then some (visual_summary abc total remaining_pct budget) else none
      | [] => none
    .report ⟨r.1, r.2, abc, pcts, total, remaining, remaining_pct, days_left, daily, pie⟩

/-- `summarize(expense_path, budget)` (lines 170–211) as a state function:
the result together with the file system after the call. -/
def summarize (fs : FS) (path : String) (budget : ℚ) (today : Date)
    (stdin : List String) : SummarizeResult × FS :=
  match fs.read path with
  | none => (.empty, fs)
  | some content =>
    if content = "" then (.empty, fs)
    else (summarizeContent content budget today stdin, fs)

/-! ## Helper lemmas about the read loop and aggregation -/

/-- A line is well formed when it splits into exactly four comma-separated
fields and its amount field parses as a float. -/
def wellFormedLine (l : String) : Bool :=
  match splitOnChar ',' (trimChars l.data) with
  | [_date, _n, a, _c] => (parseFloatChars a).isSome
  | _ => false

theorem parseLine_isSome_eq (l : String) : (parseLine l).isSome = wellFormedLine l := by
  rw [parseLine, wellFormedLine]
  rcases splitOnChar ',' (trimChars l.data) with _ | ⟨d, _ | ⟨n, _ | ⟨a, _ | ⟨c, _ | rest⟩⟩⟩⟩ <;>
    simp

theorem readLoop_eq_filter (lines : List String) :
    readLoop lines =
      (lines.filterMap parseLine, lines.filter (fun l => !wellFormedLine l)) := by
  induction lines with
  | nil => rfl
  | cons l ls ih =>
    rcases hp : parseLine l with _ | e
    · have hw : wellFormedLine l = false := by
        rw [← parseLine_isSome_eq, hp, Option.isSome_none]
      simp [readLoop, hp, ih, List.filter_cons, hw]
    · have hw : wellFormedLine l = true := by
        rw [← parseLine_isSome_eq, hp, Option.isSome_some]
      simp [readLoop, hp, ih, List.filter_cons, hw]

theorem map_if_eq_self {c : String} {x : ℚ} (t : List (String × ℚ))
    (h : ∀ q ∈ t, q.1 ≠ c) :
    t.map (fun p => if p.1 = c then (p.1, p.2 + x) else p) = t := by
  induction t with
  | nil => rfl
  | cons p t ih =>
    rw [List.map_cons, if_neg (h p (by simp)), ih (fun q hq => h q (by simp [hq]))]

theorem sum_map_add_one {c : String} {x : ℚ} (t : List (String × ℚ))
    (hnd : (t.map Prod.fst).Nodup) (hany : t.any (fun p => p.1 = c) = true) :
    ((t.map (fun p => if p.1 = c then (p.1, p.2 + x) else p)).map Prod.snd).sum =
      (t.map Prod.snd).sum + x := by
  induction t with
  | nil => simp at hany
  | cons p t ih =>
    rw [List.map_cons, List.nodup_cons] at hnd
    by_cases hp : p.1 = c
    · have hnone : ∀ q ∈ t, q.1 ≠ c := by
        intro q hq hqc
        apply hnd.1
        rw [hp, ← hqc]
        exact List.mem_map_of_mem Prod.fst hq
      rw [List.map_cons, if_pos hp, map_if_eq_self t hnone]
      simp only [List.map_cons, List.sum_cons]
      ring
    · have hany' : t.any (fun p => p.1 = c) = true := by
        rcases List.any_eq_true.1 hany with ⟨q, hq, hqc⟩
        rcases List.mem_cons.1 hq with rfl | hq
        · simp at hqc
          exact absurd hqc hp
        · exact List.any_eq_true.2 ⟨q, hq, hqc⟩
      rw [List.map_cons, if_neg hp]
      simp only [List.map_cons, List.sum_cons, ih hnd.2 hany']
      ring

theorem sum_upsert (acc : List (String × ℚ)) (e : Expense)
    (hnd : (acc.map Prod.fst).Nodup) :
    ((upsert acc e).map Prod.snd).sum = (acc.map Prod.snd).sum + e.amount := by
  rw [upsert]
  by_cases hany : acc.any (fun p => p.1 = e.category) = true
  · rw [if_pos hany]
    exact sum_map_add_one acc hnd hany
  · rw [if_neg hany]
    simp

theorem nodup_keys_upsert (acc : List (String × ℚ)) (e : Expense)
    (hnd : (acc.map Prod.fst).Nodup) :
    ((upsert acc e).map Prod.fst).Nodup := by
  rw [upsert]
  by_cases hany : acc.any (fun p => p.1 = e.category) = true
  · rw [if_pos hany, List.map_map]
    have hfst : (Prod.fst ∘ fun p : String × ℚ =>
        if p.1 = e.category then (p.1, p.2 + e.amount) else p) = Prod.fst := by
      funext p
      by_cases hp : p.1 = e.category <;> simp [hp]
    rw [hfst]
    exact hnd
  · rw [if_neg hany]
    have hnotmem : e.category ∉ acc.map Prod.fst := by
      intro hmem
      rcases List.mem_map.1 hmem with ⟨q, hq, hqc⟩
      exact hany (List.any_eq_true.2 ⟨q, hq, by simp [hqc]⟩)
    simp [List.nodup_append, hnd, hnotmem]

theorem aggregate_foldl_spec (es : List Expense) :
    ∀ acc : List (String × ℚ), (acc.map Prod.fst).Nodup →
      ((es.foldl upsert acc).map Prod.snd).sum = (acc.map Prod.snd).sum + totalSpent es ∧
      ((es.foldl upsert acc).map Prod.fst).Nodup := by
  induction es with
  | nil => intro acc hnd; simp [totalSpent, hnd]
  | cons e es ih =>
    intro acc hnd
    rw [List.foldl_cons]
    obtain ⟨hs, hn⟩ := ih (upsert acc e) (nodup_keys_upsert acc e hnd)
    refine ⟨?_, hn⟩
    have ht : totalSpent (e :: es) = e.amount + totalSpent es := by
      rw [totalSpent, totalSpent, List.map_cons, List.sum_cons]
    rw [hs, sum_upsert acc e hnd, ht]
    ring

theorem upsert_length_le (acc : List (String × ℚ)) (e : Expense) :
    acc.length ≤ (upsert acc e).length := by
  rw [upsert]
  by_cases hany : acc.any (fun p => p.1 = e.category) = true <;> simp [hany]

theorem foldl_upsert_length (es : List Expense) :
    ∀ acc : List (String × ℚ), acc.length ≤ (es.foldl upsert acc).length := by
  induction es with
  | nil => intro acc; simp
  | cons e es ih =>
    intro acc
    rw [List.foldl_cons]
    exact le_trans (upsert_length_le acc e) (ih (upsert acc e))

theorem aggregate_ne_nil {es : List Expense} (h : es ≠ []) : aggregate es ≠ [] := by
  rcases es with _ | ⟨e, es⟩
  · exact absurd rfl h
  · rw [aggregate, List.foldl_cons]
    have h1 : (upsert [] e).length ≤ (es.foldl upsert (upsert [] e)).length :=
      foldl_upsert_length es (upsert [] e)
    have h2 : (upsert [] e).length = 1 := by rw [upsert]; simp
    intro hnil
    rw [hnil] at h1
    simp [h2] at h1

theorem totalSpent_ne_zero_ne_nil {es : List Expense} (h : totalSpent es ≠ 0) : es ≠ [] := by
  rintro rfl
  exact h rfl

theorem catPcts_budget_zero {abc : List (String × ℚ)} {total : ℚ}
    (habc : abc ≠ []) (htot : total ≠ 0) : catPcts abc total 0 = none := by
  rcases abc with _ | ⟨p, t⟩
  · exact absurd rfl habc
  · rw [catPcts, List.mapM_cons, if_pos htot, if_pos rfl]
    rfl

theorem catPcts_total_zero (abc : List (String × ℚ)) (budget : ℚ) :
    catPcts abc 0 budget = some (abc.map (fun p => (p.1, (0 : ℚ)))) := by
  induction abc with
  | nil => rfl
  | cons p t ih =>
    rw [catPcts] at ih ⊢
    rw [List.mapM_cons, if_neg (by simp), ih]
    rfl

/-! ## C10: summarize is read-only on the persistent state -/

/-- C10: for every file system, store path, budget, run date, and pending
input, the `summarize` operation leaves the file system (expense store and
budget store alike) exactly as it found it. -/
theorem summarize_preserves_fs (fs : FS) (path : String) (budget : ℚ) (today : Date)
    (stdin : List String) : (summarize fs path budget today stdin).2 = fs := by
  rw [summarize]
  rcases fs.read path with _ | content
  · rfl
  · by_cases h : content = "" <;> simp [h]

/-! ## C9: what the validation loops guarantee about accepted values -/

theorem budgetLoopFull_not_neg :
    ∀ inp v rest n, budgetLoopFull inp = some (v, rest, n) → v.ltZero = false := by
  intro inp
  induction inp with
  | nil => intro v rest n h; exact Option.noConfusion h
  | cons s t ih =>
    intro v rest n h
    rw [budgetLoopFull] at h
    rcases hp : pyFloatFull s with _ | w <;> rw [hp] at h <;> (try dsimp only at h)
    · rcases hb : budgetLoopFull t with _ | ⟨rv, rr, rn⟩ <;> rw [hb] at h
      · exact Option.noConfusion h
      · injection h with h
        have hv : rv = v := congrArg Prod.fst h
        exact hv ▸ ih rv rr rn hb
    · split at h
      · rcases hb : budgetLoopFull t with _ | ⟨rv, rr, rn⟩ <;> rw [hb] at h
        · exact Option.noConfusion h
        · injection h with h
          have hv : rv = v := congrArg Prod.fst h
          exact hv ▸ ih rv rr rn hb
      · injection h with h
        have hv : w = v := congrArg Prod.fst h
        rename_i hw
        rw [← hv]
        cases hb : w.ltZero
        · rfl
        · exact absurd hb hw

theorem amountLoopFull_not_neg :
    ∀ inp v rest n, amountLoopFull inp = some (v, rest, n) → v.ltZero = false := by
  intro inp
  induction inp with
  | nil => intro v rest n h; exact Option.noConfusion h
  | cons s t ih =>
    intro v rest n h
    rw [amountLoopFull] at h
    rcases hp : pyFloatFull s with _ | w <;> rw [hp] at h <;> (try dsimp only at h)
    · rcases hb : amountLoopFull t with _ | ⟨rv, rr, rn⟩ <;> rw [hb] at h
      · exact Option.noConfusion h
      · injection h with h
        have hv : rv = v := congrArg Prod.fst h
        exact hv ▸ ih rv rr rn hb
    · split at h
      · rcases hb : amountLoopFull t with _ | ⟨rv, rr, rn⟩ <;> rw [hb] at h
        · exact Option.noConfusion h
        · injection h with h
          have hv : rv = v := congrArg Prod.fst h
          exact hv ▸ ih rv rr rn hb
      · injection h with h
        have hv : w = v := congrArg Prod.fst h
        rename_i hw
        rw [← hv]
        cases hb : w.ltZero
        · rfl
        · exact absurd hb hw

/-- Counterexample to C9 as stated: Python's `float` accepts `"nan"`, and
NaN fails the loops' `< 0` rejection test, so both validation loops accept
the input `nan` and return NaN — which is not `>= 0`. -/
theorem validation_loops_nonneg_cex :
    budgetLoopFull ["nan"] = some (.nan, [], 1) ∧
    amountLoopFull ["nan"] = some (.nan, [], 1) ∧
    PyVal.geZero .nan = false := by decide

/-- C9 (amended): the validation loops only guarantee the negation of the
rejection test: every value either loop returns satisfies Python's
`not (v < 0)`, and every finite (numeric) value returned is nonnegative.
NaN and positive infinity are the only possible non-numeric returns, and
NaN is not `>= 0`. -/
theorem validation_loops_not_neg :
    (∀ inp v rest n, budgetLoopFull inp = some (v, rest, n) → v.ltZero = false) ∧
    (∀ inp q rest n, budgetLoopFull inp = some (.num q, rest, n) → 0 ≤ q) ∧
    (∀ inp v rest n, amountLoopFull inp = some (v, rest, n) → v.ltZero = false) ∧
    (∀ inp q rest n, amountLoopFull inp = some (.num q, rest, n) → 0 ≤ q) := by
  refine ⟨budgetLoopFull_not_neg, ?_, amountLoopFull_not_neg, ?_⟩
  · intro inp q rest n h
    have hlt := budgetLoopFull_not_neg inp (.num q) rest n h
    simp [PyVal.ltZero] at hlt
    exact hlt
  · intro inp q rest n h
    have hlt := amountLoopFull_not_neg inp (.num q) rest n h
    simp [PyVal.ltZero] at hlt
    exact hlt

/-- Witness for C9 (amended) at concrete input sequences with a rejected
negative infinity, a rejected non-numeral, and accepted numerals. -/
theorem validation_loops_not_neg_witness :
    PyVal.ltZero (.num 42) = false ∧ (0 : ℚ) ≤ 42 ∧
    PyVal.ltZero (.num 7) = false ∧ (0 : ℚ) ≤ 7 :=
  ⟨validation_loops_not_neg.1 ["-inf", "42"] (.num 42) [] 2 (by decide),
   validation_loops_not_neg.2.1 ["-inf", "42"] 42 [] 2 (by decide),
   validation_loops_not_neg.2.2.1 ["oops", "7"] (.num 7) [] 2 (by decide),
   validation_loops_not_neg.2.2.2 ["oops", "7"] 7 [] 2 (by decide)⟩

/-! ## C6: malformed lines are skipped, well-formed lines aggregated -/

/-- C6: the read loop of `summarize` skips exactly those lines that do not
split into exactly four comma-separated fields or whose amount field is
non-numeric (collecting each as a warning) and keeps the parsed records of
the remaining lines; in particular the store holding
`2025-06-01,Coffee,50,Food` and `garbage` yields a grand total of 50. -/
theorem summarize_skips_malformed :
    (∀ lines : List String,
      readLoop lines =
        (lines.filterMap parseLine, lines.filter (fun l => !wellFormedLine l))) ∧
    totalSpent (readLoop (pyLines "2025-06-01,Coffee,50,Food\ngarbage\n")).1 = 50 := by
  constructor
  · exact readLoop_eq_filter
  · have h : (readLoop (pyLines "2025-06-01,Coffee,50,Food\ngarbage\n")).1 =
        [⟨"Coffee", "Food", ((50 : ℕ) : ℚ)⟩] := rfl
    rw [h, totalSpent]
    simp

/-! ## C7: per-category totals sum to the grand total -/

set_option linter.unusedVariables false in
/-- C7: for every list of parsed expense records with non-negative amounts,
the per-category totals computed by the aggregation of `summarize` sum to
its grand total (exactly: rationals model the decimal float values, so the
floating-point tolerance of the claim is met with exact equality). -/
theorem category_sums_eq_total (es : List Expense)
    (h : ∀ e ∈ es, 0 ≤ e.amount) :
    ((aggregate es).map Prod.snd).sum = totalSpent es := by
  have hspec := (aggregate_foldl_spec es [] (by simp)).1
  simpa [aggregate] using hspec

/-- Witness for C7 on a concrete record list with a repeated category. -/
theorem category_sums_eq_total_witness :
    ((aggregate [⟨"a", "Food", 2⟩, ⟨"b", "Transport", 3⟩, ⟨"c", "Food", 4⟩]).map
        Prod.snd).sum =
      totalSpent [⟨"a", "Food", 2⟩, ⟨"b", "Transport", 3⟩, ⟨"c", "Food", 4⟩] :=
  category_sums_eq_total _ (by decide)

/-! ## C8: days remaining and daily allowance -/

/-- C8: `summarize` computes days remaining as the month's total days minus
today's day-of-month and the daily allowance as remaining budget over days
remaining, guarded so that when no days remain (in particular on the last day
of the month) the allowance is exactly 0 with no division taken. -/
theorem summarize_days_left (content : String) (budget : ℚ) (today : Date)
    (stdin : List String) (rep : Report)
    (h : summarizeContent content budget today stdin = .report rep) :
    rep.days_left = daysInMonth today.year today.month - today.day ∧
    rep.daily = (if rep.days_left ≠ 0 then rep.remaining / (rep.days_left : ℚ) else 0) ∧
    (today.day = daysInMonth today.year today.month → rep.days_left = 0 ∧ rep.daily = 0) := by
  unfold summarizeContent at h
  dsimp only at h
  rcases hc : catPcts (aggregate (readLoop (pyLines content)).1)
      (totalSpent (readLoop (pyLines content)).1) budget with _ | pcts <;>
    rw [hc] at h
  · exact SummarizeResult.noConfusion h
  · injection h with h
    subst h
    refine ⟨rfl, rfl, ?_⟩
    intro hlast
    have hdz : daysInMonth today.year today.month - today.day = 0 := by omega
    constructor
    · exact hdz
    · show (if daysInMonth today.year today.month - today.day ≠ 0 then _ else (0 : ℚ)) = 0
      rw [if_neg (by omega)]

/-- The report produced on the last day of June 2025 from a store holding a
single malformed line, on budget 200. -/
def lastDayRep : Report :=
  ⟨[], ["garbage"], [], [], 0, (200 : ℚ) - 0, ((200 : ℚ) - 0) / 200 * 100, 0, 0, none⟩

/-- Witness for C8 on the last day of a month. -/
theorem summarize_days_left_witness :
    lastDayRep.days_left = 0 ∧ lastDayRep.daily = 0 := by
  have h : summarizeContent "garbage\n" 200 ⟨2025, 6, 30⟩ [] = .report lastDayRep := rfl
  exact (summarize_days_left _ _ _ _ _ h).2.2 (by decide)

/-! ## C2: the pie chart's slices -/

theorem visual_summary_spec (abc : List (String × ℚ)) (ts rp b : ℚ) :
    visual_summary abc ts rp b =
      ("Remaining" :: abc.map Prod.fst,
       rp :: abc.map (fun p => if b ≠ 0 then p.2 / b * 100 else 0)) := by
  suffices hgen : ∀ (L : List String) (S : List ℚ),
      abc.foldl
          (fun acc p => (acc.1 ++ [p.1], acc.2 ++ [if b ≠ 0 then p.2 / b * 100 else 0]))
          (L, S) =
        (L ++ abc.map Prod.fst,
         S ++ abc.map fun p => if b ≠ 0 then p.2 / b * 100 else 0) by
    rw [visual_summary, hgen ["Remaining"] [rp]]
    simp
  induction abc with
  | nil => intro L S; simp
  | cons p t ih =>
    intro L S
    rw [List.foldl_cons, ih]
    simp

/-- Counterexample to C2 as stated: with `amount_by_cat = [("Food", 50)]`,
`total_spent = 50` and `budget = 200`, the code sizes the Food slice as
`50 / 200 * 100 = 25`, not the claimed spending-relative
`50 / 50 * 100 = 100`. -/
theorem pie_spending_relative_cex :
    (visual_summary [("Food", 50)] 50 75 200).2 = [75, 25] ∧
    (50 : ℚ) / 50 * 100 = 100 ∧ (25 : ℚ) ≠ 100 := by
  refine ⟨?_, by norm_num, by norm_num⟩
  rw [visual_summary_spec]
  norm_num

/-- C2 (amended): the pie chart has one slice per category sized by the
budget-relative percentage `amount / budget * 100` (0 when the budget is 0),
plus one leading `"Remaining"` slice sized by the budget-relative remaining
percentage. -/
theorem pie_slices (content : String) (budget : ℚ) (today : Date) (stdin : List String)
    (rep : Report) (labels : List String) (sizes : List ℚ)
    (h : summarizeContent content budget today stdin = .report rep)
    (hpie : rep.pie = some (labels, sizes)) :
    labels = "Remaining" :: rep.amount_by_cat.map Prod.fst ∧
    sizes = rep.remaining_pct ::
      rep.amount_by_cat.map (fun p => if budget ≠ 0 then p.2 / budget * 100 else 0) ∧
    rep.remaining_pct = (if budget ≠ 0 then rep.remaining / budget * 100 else 0) := by
  unfold summarizeContent at h
  dsimp only at h
  rcases hc : catPcts (aggregate (readLoop (pyLines content)).1)
      (totalSpent (readLoop (pyLines content)).1) budget with _ | pcts <;>
    rw [hc] at h
  · exact SummarizeResult.noConfusion h
  · injection h with h
    subst h
    refine ⟨?_, ?_, rfl⟩ <;>
    · dsimp only at hpie
      split at hpie
      · split at hpie
        · rw [visual_summary_spec] at hpie
          injection hpie with hpie
          have h1 := congrArg Prod.fst hpie
          have h2 := congrArg Prod.snd hpie
          dsimp only at h1 h2
          first
          | exact h1.symm
          | exact h2.symm
        · exact Option.noConfusion hpie
      · exact Option.noConfusion hpie

/-- The report produced from a single malformed line on budget 200 at
mid-June 2025 with the pie chart requested. -/
def pieRep : Report :=
  ⟨[], ["garbage"], [], [], 0, (200 : ℚ) - 0, ((200 : ℚ) - 0) / 200 * 100, 15,
   ((200 : ℚ) - 0) / ((15 : ℕ) : ℚ),
   some (["Remaining"], [((200 : ℚ) - 0) / 200 * 100])⟩

/-- Witness for C2 (amended) on a concrete store and budget. -/
theorem pie_slices_witness :
    (["Remaining"] : List String) = "Remaining" :: pieRep.amount_by_cat.map Prod.fst ∧
    ([((200 : ℚ) - 0) / 200 * 100] : List ℚ) = pieRep.remaining_pct ::
      pieRep.amount_by_cat.map (fun p => if (200 : ℚ) ≠ 0 then p.2 / 200 * 100 else 0) ∧
    pieRep.remaining_pct = (if (200 : ℚ) ≠ 0 then pieRep.remaining / 200 * 100 else 0) := by
  have h : summarizeContent "garbage\n" 200 ⟨2025, 6, 15⟩ ["y"] = .report pieRep := rfl
  have hpie : pieRep.pie = some (["Remaining"], [((200 : ℚ) - 0) / 200 * 100]) := rfl
  exact pie_slices "garbage\n" 200 ⟨2025, 6, 15⟩ ["y"] pieRep _ _ h hpie

/-! ## C5: first-of-month carry-over -/

/-- C5: if this month has no budget record, the previous month's store holds
`5000`, today is the 1st, and the user confirms with `y`, then the Budget
Resolver writes this month's record with value 5000 and returns 5000 (the
stored text parses back to 5000). -/
theorem carry_over (today : Date) (fs : FS) (stdin : List String)
    (h1 : today.day = 1) (h2 : fs.read (budget_file_for today) = none)
    (h3 : fs.read (budget_file_for (prevMonthDate today)) = some "5000") :
    load_or_create_budget today fs ("y" :: stdin) =
      some ⟨5000, fs.write (budget_file_for today) (pyStr 5000), stdin, 1⟩ ∧
    pyFloat (pyStr 5000) = some 5000 := by
  constructor
  · rw [load_or_create_budget, h2]
    dsimp only
    rw [h3, h1, show ((1 : ℕ) == 1) = true from rfl]
    dsimp only
    have hpf : pyFloat (pyStrip "5000") = some ((5000 : ℕ) : ℚ) := by decide
    rw [hpf]
    dsimp only
    rw [if_pos (by decide : isYes "y" = true)]
    norm_num
  · exact pyFloat_pyStr (by decide)

/-- Witness for C5 on concrete July 2025 stores. -/
theorem carry_over_witness :
    load_or_create_budget ⟨2025, 7, 1⟩ [("budget_2025-06.txt", "5000")] ["y"] =
      some ⟨5000,
        FS.write [("budget_2025-06.txt", "5000")] (budget_file_for ⟨2025, 7, 1⟩) (pyStr 5000),
        [], 1⟩ ∧
    pyFloat (pyStr 5000) = some 5000 :=
  carry_over ⟨2025, 7, 1⟩ [("budget_2025-06.txt", "5000")] [] rfl (by decide) (by decide)

/-! ## C4: the Budget Resolver is idempotent within a month -/

theorem budgetLoop_from_pyFloat :
    ∀ inp v rest n, budgetLoop inp = some (v, rest, n) → ∃ s, pyFloat s = some v := by
  intro inp
  induction inp with
  | nil => intro v rest n h; exact Option.noConfusion h
  | cons s t ih =>
    intro v rest n h
    rw [budgetLoop] at h
    rcases hp : pyFloat s with _ | w <;> rw [hp] at h <;> (try dsimp only at h)
    · rcases hb : budgetLoop t with _ | ⟨rv, rr, rn⟩ <;> rw [hb] at h
      · exact Option.noConfusion h
      · injection h with h
        have hv : rv = v := congrArg Prod.fst h
        exact hv ▸ ih rv rr rn hb
    · split at h
      · rcases hb : budgetLoop t with _ | ⟨rv, rr, rn⟩ <;> rw [hb] at h
        · exact Option.noConfusion h
        · injection h with h
          have hv : rv = v := congrArg Prod.fst h
          exact hv ▸ ih rv rr rn hb
      · injection h with h
        have hv : w = v := congrArg Prod.fst h
        exact ⟨s, hv ▸ hp⟩

theorem pyStrChars_no_space (a : ℚ) : ∀ c ∈ pyStrChars a, isSpaceChar c = false := by
  intro c hc
  rw [pyStrChars] at hc
  split at hc
  · rcases List.mem_cons.1 hc with rfl | hc
    · decide
    · exact printNonneg_no_space _ hc
  · exact printNonneg_no_space _ hc

theorem pyStrip_pyStr (a : ℚ) : pyStrip (pyStr a) = pyStr a :=
  congrArg (fun l => (⟨l⟩ : String)) (trimChars_of_no_space (pyStrChars_no_space a))

/-- After the fresh-entry path writes `str(new_budget)` to this month's
store, the store reads back and re-parses to the stored value. -/
theorem budgetLoop_write_reads_back (fs : FS) (path : String) (inp : List String)
    (f : ℕ → ℕ) (r : ResolveResult)
    (h : (budgetLoop inp).map
        (fun q => (⟨q.1, fs.write path (pyStr q.1), q.2.1, f q.2.2⟩ : ResolveResult)) =
      some r) :
    r.fs.read path = some (pyStr r.value) ∧
      pyFloat (pyStrip (pyStr r.value)) = some r.value := by
  rcases hb : budgetLoop inp with _ | ⟨v, rest, n⟩ <;> rw [hb] at h
  · exact Option.noConfusion h
  · have h2 : some (⟨v, fs.write path (pyStr v), rest, f n⟩ : ResolveResult) = some r := h
    injection h2 with h2
    obtain ⟨s, hs⟩ := budgetLoop_from_pyFloat inp v rest n hb
    have hdvd := pyFloat_den_dvd hs
    constructor
    · rw [← h2]
      exact FS.read_write fs path (pyStr v)
    · rw [← h2]
      show pyFloat (pyStrip (pyStr v)) = some v
      rw [pyStrip_pyStr]
      exact pyFloat_pyStr hdvd

/-- After any successful call, this month's budget store exists and its
(stripped) text parses to the returned value. -/
theorem resolved_reads_back (today : Date) (fs : FS) (stdin : List String)
    (r : ResolveResult) (h : load_or_create_budget today fs stdin = some r) :
    ∃ text, r.fs.read (budget_file_for today) = some text ∧
      pyFloat (pyStrip text) = some r.value := by
  rw [load_or_create_budget] at h
  rcases hcur : fs.read (budget_file_for today) with _ | text <;> rw [hcur] at h <;>
    dsimp only at h
  · -- no budget record for this month yet
    rcases hprev : fs.read (budget_file_for (prevMonthDate today)) with _ | ptext <;>
      rw [hprev] at h
    · -- no previous-month record: fresh entry
      obtain ⟨h1, h2⟩ := budgetLoop_write_reads_back fs (budget_file_for today) stdin id r h
      exact ⟨pyStr r.value, h1, h2⟩
    · rcases hday : today.day == 1 with _ | _ <;> rw [hday] at h <;> dsimp only at h
      · -- not the 1st: fresh entry
        obtain ⟨h1, h2⟩ := budgetLoop_write_reads_back fs (budget_file_for today) stdin id r h
        exact ⟨pyStr r.value, h1, h2⟩
      · -- the 1st with a previous record: carry-over question
        rcases hpf : pyFloat (pyStrip ptext) with _ | pv <;> rw [hpf] at h <;>
          dsimp only at h
        · exact Option.noConfusion h
        · rcases stdin with _ | ⟨ans, rest⟩
          · exact Option.noConfusion h
          · dsimp only at h
            split at h
            · -- user confirms: the previous value is written
              have h2 : some (⟨pv, fs.write (budget_file_for today) (pyStr pv), rest, 1⟩ :
                  ResolveResult) = some r := h
              injection h2 with h2
              have hdvd := pyFloat_den_dvd hpf
              refine ⟨pyStr r.value, ?_, ?_⟩
              · rw [← h2]
                exact FS.read_write fs _ (pyStr pv)
              · rw [← h2]
                show pyFloat (pyStrip (pyStr pv)) = some pv
                rw [pyStrip_pyStr]
                exact pyFloat_pyStr hdvd
            · -- user declines: fresh entry
              obtain ⟨h1, h2⟩ :=
                budgetLoop_write_reads_back fs (budget_file_for today) rest
                  (fun n => n + 1) r h
              exact ⟨pyStr r.value, h1, h2⟩
  · -- a record already exists: it is returned unchanged
    rcases hpf : pyFloat (pyStrip text) with _ | v <;> rw [hpf] at h
    · exact Option.noConfusion h
    · injection h with h
      refine ⟨text, ?_, ?_⟩
      · rw [← h]
        exact hcur
      · rw [← h, hpf]

/-- C4: calling the Budget Resolver a second time in the same month (with
the stores as the first call left them) returns the same amount, consumes no
input, and performs no prompting. -/
theorem budget_resolver_idempotent (today : Date) (fs : FS) (stdin stdin2 : List String)
    (r : ResolveResult) (h : load_or_create_budget today fs stdin = some r) :
    load_or_create_budget today r.fs stdin2 = some ⟨r.value, r.fs, stdin2, 0⟩ := by
  obtain ⟨text, ht, hp⟩ := resolved_reads_back today fs stdin r h
  rw [load_or_create_budget, ht]
  dsimp only
  rw [hp]
  rfl

/-- Witness for C4 with a concrete existing June 2025 budget store. -/
theorem budget_resolver_idempotent_witness :
    load_or_create_budget ⟨2025, 6, 15⟩ [("budget_2025-06.txt", "5000")] [] =
      some ⟨5000, [("budget_2025-06.txt", "5000")], [], 0⟩ :=
  budget_resolver_idempotent ⟨2025, 6, 15⟩ [("budget_2025-06.txt", "5000")] [] []
    ⟨5000, [("budget_2025-06.txt", "5000")], [], 0⟩ (by decide)

/-! ## Split and line lemmas for the store round trip -/

theorem splitOnChar_ne_nil (sep : Char) (l : List Char) : splitOnChar sep l ≠ [] := by
  cases l with
  | nil => simp [splitOnChar]
  | cons c rest =>
    rw [splitOnChar]
    rcases splitOnChar sep rest with _ | ⟨h, t⟩
    · simp
    · by_cases hc : c = sep <;> simp [hc]

theorem splitOnChar_no_sep (sep : Char) (l : List Char) (h : sep ∉ l) :
    splitOnChar sep l = [l] := by
  induction l with
  | nil => rfl
  | cons c rest ih =>
    rw [splitOnChar, ih (fun hm => h (List.mem_cons_of_mem c hm))]
    dsimp only
    rw [if_neg (fun hceq : c = sep => h (by rw [← hceq]; exact List.mem_cons_self c rest))]

theorem splitOnChar_append (sep : Char) (A B : List Char) :
    splitOnChar sep (A ++ sep :: B) = splitOnChar sep A ++ splitOnChar sep B := by
  induction A with
  | nil =>
    rcases hB : splitOnChar sep B with _ | ⟨h, t⟩
    · exact absurd hB (splitOnChar_ne_nil sep B)
    · rw [List.nil_append]
      rw [show splitOnChar sep (sep :: B) =
          (match splitOnChar sep B with
           | [] => [[]]
           | h :: t => if sep = sep then [] :: h :: t else (sep :: h) :: t) from rfl, hB]
      simp [splitOnChar]
  | cons a A ih =>
    rw [List.cons_append, splitOnChar, ih]
    rcases hA : splitOnChar sep A with _ | ⟨h, t⟩
    · exact absurd hA (splitOnChar_ne_nil sep A)
    · by_cases ha : a = sep <;> simp [splitOnChar, hA, ha]

theorem string_data_append (s t : String) : (s ++ t).data = s.data ++ t.data := by
  cases s
  cases t
  rfl

theorem string_mk_data (s : String) : (⟨s.data⟩ : String) = s := by
  cases s
  rfl

theorem data_mk (l : List Char) : (⟨l⟩ : String).data = l := rfl

/-- Appending one newline-terminated line to an empty or newline-terminated
store adds exactly one parsed line. -/
theorem pyLines_append_line (c line : String) (hnl : ('\n') ∉ line.data)
    (hc : c.data = [] ∨ ∃ c0, c.data = c0 ++ ['\n']) :
    pyLines (c ++ line ++ "\n") = pyLines c ++ [line] := by
  have hdata : (c ++ line ++ "\n").data = c.data ++ (line.data ++ '\n' :: []) := by
    rw [string_data_append, string_data_append]
    simp [data_mk]
  rcases hc with hc | ⟨c0, hc⟩
  · rw [pyLines, pyLines, hdata, hc, List.nil_append, splitOnChar_append,
      splitOnChar_no_sep _ _ hnl]
    simp [splitOnChar, string_mk_data]
  · have hsplit1 : splitOnChar '\n' (c.data ++ (line.data ++ '\n' :: [])) =
        (splitOnChar '\n' c0 ++ [line.data]) ++ [[]] := by
      rw [hc]
      have : (c0 ++ ['\n']) ++ (line.data ++ '\n' :: []) =
          c0 ++ '\n' :: (line.data ++ '\n' :: []) := by simp
      rw [this, splitOnChar_append, splitOnChar_append, splitOnChar_no_sep _ _ hnl]
      simp [splitOnChar]
    have hsplit2 : splitOnChar '\n' c.data = splitOnChar '\n' c0 ++ [[]] := by
      rw [hc]
      have : c0 ++ ['\n'] = c0 ++ '\n' :: [] := rfl
      rw [this, splitOnChar_append]
      rfl
    rw [pyLines, pyLines, hdata, hsplit1, hsplit2]
    rw [List.getLast?_concat, List.getLast?_concat]
    simp only [if_pos rfl, List.dropLast_concat]
    simp [string_mk_data]

theorem readLoop_append (xs ys : List String) :
    readLoop (xs ++ ys) =
      ((readLoop xs).1 ++ (readLoop ys).1, (readLoop xs).2 ++ (readLoop ys).2) := by
  induction xs with
  | nil => simp [readLoop]
  | cons l ls ih =>
    rcases hp : parseLine l with _ | e <;> simp [readLoop, hp, ih]

/-! ## Character classes of the stored line's fields -/

theorem isDigit_of_mem_pad2 {n : ℕ} {ch : Char} (h : ch ∈ pad2 n) : ch.isDigit = true := by
  rw [pad2] at h
  rcases List.mem_append.1 h with h | h
  · rw [List.eq_of_mem_replicate h]; decide
  · exact isDigit_of_mem_natStr h

theorem isDigit_of_mem_pad4 {n : ℕ} {ch : Char} (h : ch ∈ pad4 n) : ch.isDigit = true := by
  rw [pad4] at h
  rcases List.mem_append.1 h with h | h
  · rw [List.eq_of_mem_replicate h]; decide
  · exact isDigit_of_mem_natStr h

theorem mem_dateStr {d : Date} {ch : Char} (h : ch ∈ (dateStr d).data) :
    ch.isDigit = true ∨ ch = '-' := by
  rw [dateStr, data_mk] at h
  rcases List.mem_append.1 h with h | h
  · exact Or.inl (isDigit_of_mem_pad4 h)
  · rcases List.mem_cons.1 h with rfl | h
    · exact Or.inr rfl
    · rcases List.mem_append.1 h with h | h
      · exact Or.inl (isDigit_of_mem_pad2 h)
      · rcases List.mem_cons.1 h with rfl | h
        · exact Or.inr rfl
        · exact Or.inl (isDigit_of_mem_pad2 h)

theorem mem_pyStrChars {a : ℚ} {ch : Char} (h : ch ∈ pyStrChars a) :
    ch.isDigit = true ∨ ch = '.' ∨ ch = '-' := by
  rw [pyStrChars] at h
  split at h
  · rcases List.mem_cons.1 h with rfl | h
    · exact Or.inr (Or.inr rfl)
    · rcases mem_printNonneg h with h | h
      · exact Or.inl h
      · exact Or.inr (Or.inl h)
  · rcases mem_printNonneg h with h | h
    · exact Or.inl h
    · exact Or.inr (Or.inl h)

theorem catalog_facts :
    ∀ cat ∈ EXPENSE_CATEGORIES, cat.data ≠ [] ∧
      ∀ ch ∈ cat.data, ch ≠ ',' ∧ ch ≠ '\n' ∧ isSpaceChar ch = false := by decide

theorem comma_not_mem_dateStr (d : Date) : (',') ∉ (dateStr d).data := by
  intro h
  rcases mem_dateStr h with h | h
  · exact absurd h (by decide)
  · exact absurd h (by decide)

theorem newline_not_mem_dateStr (d : Date) : ('\n') ∉ (dateStr d).data := by
  intro h
  rcases mem_dateStr h with h | h
  · exact absurd h (by decide)
  · exact absurd h (by decide)

theorem comma_not_mem_pyStrChars (a : ℚ) : (',') ∉ pyStrChars a := by
  intro h
  rcases mem_pyStrChars h with h | h | h <;> exact absurd h (by decide)

theorem newline_not_mem_pyStrChars (a : ℚ) : ('\n') ∉ pyStrChars a := by
  intro h
  rcases mem_pyStrChars h with h | h | h <;> exact absurd h (by decide)

/-! ## Stripping leaves a line intact when its ends hold no whitespace -/

theorem trim_singleton {a : Char} (ha : isSpaceChar a = false) : trimChars [a] = [a] := by
  rw [trimChars, List.dropWhile_cons_of_neg (by simp [ha])]
  simp [List.dropWhile_cons_of_neg, ha]

theorem trim_no_space_ends {a b : Char} {m : List Char}
    (ha : isSpaceChar a = false) (hb : isSpaceChar b = false) :
    trimChars (a :: (m ++ [b])) = a :: (m ++ [b]) := by
  rw [trimChars, List.dropWhile_cons_of_neg (by simp [ha])]
  have hrev : (a :: (m ++ [b])).reverse = b :: (m.reverse ++ [a]) := by simp
  rw [hrev, List.dropWhile_cons_of_neg (by simp [hb]), ← hrev, List.reverse_reverse]

theorem trimChars_eq_self_of_ends {l : List Char}
    (hh : ∀ c, l.head? = some c → isSpaceChar c = false)
    (hl : ∀ c, l.getLast? = some c → isSpaceChar c = false) :
    trimChars l = l := by
  rcases l with _ | ⟨a, m⟩
  · rfl
  · rcases List.eq_nil_or_concat m with rfl | ⟨mid, b, rfl⟩
    · exact trim_singleton (hh a rfl)
    · rw [List.concat_eq_append]
      refine trim_no_space_ends (hh a rfl) (hl b ?_)
      rw [List.concat_eq_append, show a :: (mid ++ [b]) = (a :: mid) ++ [b] from rfl,
        List.getLast?_concat]

/-! ## The appended CSV line and its parse -/

theorem expenseLine_data (exp : Expense) (today : Date) :
    (expenseLine exp today).data =
      (dateStr today).data ++ ',' ::
        (exp.name.data ++ ',' :: ((pyStr exp.amount).data ++ ',' :: exp.category.data)) := by
  rw [expenseLine]
  rw [string_data_append, string_data_append, string_data_append, string_data_append,
    string_data_append, string_data_append]
  simp [data_mk]

theorem newline_not_mem_expenseLine (exp : Expense) (today : Date)
    (hn : ∀ ch ∈ exp.name.data, ch ≠ ',' ∧ ch ≠ '\n')
    (hcat : exp.category ∈ EXPENSE_CATEGORIES) :
    ('\n') ∉ (expenseLine exp today).data := by
  rw [expenseLine_data]
  intro h
  rcases List.mem_append.1 h with h | h
  · exact newline_not_mem_dateStr today h
  · rcases List.mem_cons.1 h with h | h
    · exact absurd h.symm (by decide)
    · rcases List.mem_append.1 h with h | h
      · exact absurd rfl (hn _ h).2
      · rcases List.mem_cons.1 h with h | h
        · exact absurd h.symm (by decide)
        · rcases List.mem_append.1 h with h | h
          · exact newline_not_mem_pyStrChars exp.amount h
          · rcases List.mem_cons.1 h with h | h
            · exact absurd h.symm (by decide)
            · exact absurd rfl ((catalog_facts _ hcat).2 _ h).2.1

theorem trim_expenseLine (exp : Expense) (today : Date)
    (hcat : exp.category ∈ EXPENSE_CATEGORIES) :
    trimChars (expenseLine exp today).data = (expenseLine exp today).data := by
  refine trimChars_eq_self_of_ends ?_ ?_
  · intro c hc
    -- the first character comes from the padded year, hence is a digit
    rw [expenseLine_data] at hc
    rcases hp4 : pad4 today.year with _ | ⟨p, ps⟩
    · exfalso
      have : natStr today.year ≠ [] := natStr_ne_nil _
      rw [pad4] at hp4
      rcases List.append_eq_nil.1 hp4 with ⟨-, h2⟩
      exact this h2
    · have hdd : (dateStr today).data = p :: (ps ++ '-' :: (pad2 today.month ++ '-' :: pad2 today.day)) := by
        rw [dateStr, data_mk, hp4]
        rfl
      rw [hdd] at hc
      rw [List.cons_append] at hc
      injection hc with hc
      have hp : p ∈ pad4 today.year := by rw [hp4]; exact List.mem_cons_self p ps
      rw [← hc]
      exact isDigit_not_space (isDigit_of_mem_pad4 hp)
  · intro c hc
    -- the last character comes from the catalog category name
    obtain ⟨hne, hchars⟩ := catalog_facts _ hcat
    rcases List.eq_nil_or_concat exp.category.data with hcd | ⟨c0, lc, hcd⟩
    · exact absurd hcd hne
    · rw [List.concat_eq_append] at hcd
      rw [expenseLine_data, hcd] at hc
      have hform : (dateStr today).data ++ ',' ::
          (exp.name.data ++ ',' :: ((pyStr exp.amount).data ++ ',' :: (c0 ++ [lc]))) =
          ((dateStr today).data ++ ',' ::
            (exp.name.data ++ ',' :: ((pyStr exp.amount).data ++ ',' :: c0))) ++ [lc] := by
        simp
      rw [hform, List.getLast?_concat] at hc
      injection hc with hc
      have hlc : lc ∈ exp.category.data := by
        rw [hcd]
        simp
      rw [← hc]
      exact (hchars _ hlc).2.2

theorem parseLine_expenseLine (exp : Expense) (today : Date)
    (hn : ∀ ch ∈ exp.name.data, ch ≠ ',' ∧ ch ≠ '\n')
    (hcat : exp.category ∈ EXPENSE_CATEGORIES)
    (hdec : (exp.amount.den : ℕ) ∣ 10 ^ kOf exp.amount.den) :
    splitOnChar ',' (trimChars (expenseLine exp today).data) =
      [(dateStr today).data, exp.name.data, (pyStr exp.amount).data, exp.category.data] ∧
    parseLine (expenseLine exp today) = some ⟨exp.name, exp.category, exp.amount⟩ := by
  have hsplit : splitOnChar ',' (trimChars (expenseLine exp today).data) =
      [(dateStr today).data, exp.name.data, (pyStr exp.amount).data, exp.category.data] := by
    rw [trim_expenseLine exp today hcat, expenseLine_data]
    rw [splitOnChar_append, splitOnChar_append, splitOnChar_append]
    rw [splitOnChar_no_sep ',' ((dateStr today).data) (comma_not_mem_dateStr today),
      splitOnChar_no_sep ',' (exp.name.data) (fun h => (hn _ h).1 rfl),
      splitOnChar_no_sep ',' ((pyStr exp.amount).data) (comma_not_mem_pyStrChars exp.amount),
      splitOnChar_no_sep ',' (exp.category.data) (fun h => ((catalog_facts _ hcat).2 _ h).1 rfl)]
    rfl
  refine ⟨hsplit, ?_⟩
  rw [parseLine, hsplit]
  dsimp only
  rw [show (pyStr exp.amount).data = pyStrChars exp.amount from rfl,
    parseFloatChars_pyStrChars hdec]
  rw [Option.map_some']

/-! ## C3: append-then-reread round trip -/

set_option linter.unusedVariables false in
/-- C3 (amended): for every expense whose description contains no comma and
no newline, whose category is from the catalog, and whose amount is a
non-negative decimal value, appending it to an empty or newline-terminated
month store with `save_expense` and re-reading the store with the
`summarize` parser appends exactly one parsed record whose description,
amount, and category equal the input, the stored line's date field being the
run's current date. -/
theorem save_then_reread_roundtrip (exp : Expense) (today : Date) (fs : FS) (path : String)
    (hn : ∀ ch ∈ exp.name.data, ch ≠ ',' ∧ ch ≠ '\n')
    (hcat : exp.category ∈ EXPENSE_CATEGORIES)
    (hpos : 0 ≤ exp.amount)
    (hdec : (exp.amount.den : ℕ) ∣ 10 ^ kOf exp.amount.den)
    (hend : ((fs.read path).getD "").data = [] ∨
      ∃ c0, ((fs.read path).getD "").data = c0 ++ ['\n']) :
    (save_expense exp today fs path).read path =
      some (((fs.read path).getD "") ++ expenseLine exp today ++ "\n") ∧
    pyLines (((fs.read path).getD "") ++ expenseLine exp today ++ "\n") =
      pyLines ((fs.read path).getD "") ++ [expenseLine exp today] ∧
    splitOnChar ',' (trimChars (expenseLine exp today).data) =
      [(dateStr today).data, exp.name.data, (pyStr exp.amount).data, exp.category.data] ∧
    (readLoop (pyLines (((fs.read path).getD "") ++ expenseLine exp today ++ "\n"))).1 =
      (readLoop (pyLines ((fs.read path).getD ""))).1 ++
        [⟨exp.name, exp.category, exp.amount⟩] := by
  obtain ⟨hsplit, hparse⟩ := parseLine_expenseLine exp today hn hcat hdec
  have hlines := pyLines_append_line ((fs.read path).getD "") (expenseLine exp today)
    (newline_not_mem_expenseLine exp today hn hcat) hend
  refine ⟨?_, hlines, hsplit, ?_⟩
  · rw [save_expense]
    exact FS.read_write fs path _
  · rw [hlines, readLoop_append]
    dsimp only
    rw [show readLoop [expenseLine exp today] =
        ([⟨exp.name, exp.category, exp.amount⟩], []) from by
      rw [readLoop, readLoop, hparse]]

/-- Counterexample to C3 as stated: a description containing a comma breaks
the round trip.  Appending the expense `("a,b", 50, Food)` to an empty store
yields a line of five comma-separated fields, which the summarize parser
skips as malformed, so no parsed record matches the input. -/
theorem save_then_reread_roundtrip_cex :
    (readLoop (pyLines
        (((save_expense ⟨"a,b", "Food", ((50 : ℕ) : ℚ)⟩ ⟨2025, 6, 15⟩ [] "expenses_2025-06.csv").read
            "expenses_2025-06.csv").getD ""))).1 = [] ∧
    ([] : List Expense) ≠ [⟨"a,b", "Food", ((50 : ℕ) : ℚ)⟩] := by
  constructor
  · rfl
  · simp

/-- Witness for C3 (amended) on an empty store and a description with an
inner space. -/
theorem save_then_reread_roundtrip_witness :
    (save_expense ⟨"Latte Grande", "Food", ((50 : ℕ) : ℚ)⟩ ⟨2025, 6, 15⟩ [] "e.csv").read "e.csv" =
      some (((FS.read [] "e.csv").getD "") ++
        expenseLine ⟨"Latte Grande", "Food", ((50 : ℕ) : ℚ)⟩ ⟨2025, 6, 15⟩ ++ "\n") ∧
    pyLines (((FS.read [] "e.csv").getD "") ++
        expenseLine ⟨"Latte Grande", "Food", ((50 : ℕ) : ℚ)⟩ ⟨2025, 6, 15⟩ ++ "\n") =
      pyLines ((FS.read [] "e.csv").getD "") ++
        [expenseLine ⟨"Latte Grande", "Food", ((50 : ℕ) : ℚ)⟩ ⟨2025, 6, 15⟩] ∧
    splitOnChar ','
        (trimChars (expenseLine ⟨"Latte Grande", "Food", ((50 : ℕ) : ℚ)⟩ ⟨2025, 6, 15⟩).data) =
      [(dateStr ⟨2025, 6, 15⟩).data, ("Latte Grande" : String).data,
       (pyStr ((50 : ℕ) : ℚ)).data, ("Food" : String).data] ∧
    (readLoop (pyLines (((FS.read [] "e.csv").getD "") ++
        expenseLine ⟨"Latte Grande", "Food", ((50 : ℕ) : ℚ)⟩ ⟨2025, 6, 15⟩ ++ "\n"))).1 =
      (readLoop (pyLines ((FS.read [] "e.csv").getD ""))).1 ++
        [⟨"Latte Grande", "Food", ((50 : ℕ) : ℚ)⟩] :=
  save_then_reread_roundtrip ⟨"Latte Grande", "Food", ((50 : ℕ) : ℚ)⟩ ⟨2025, 6, 15⟩ [] "e.csv"
    (by decide) (by decide) (by decide) (by decide) (Or.inl rfl)

/-! ## C1: summarize with a zero budget -/

/-- C1 (amended): with budget 0, `summarize` raises a `ZeroDivisionError`
whenever the parsed total spent is nonzero — the dead budget-relative
percentage of line 196 divides by the zero budget under a guard that checks
`total_spent` instead of `budget`.  When the total spent is 0, no division
error occurs and the reported per-category percentages, the remaining-budget
percentage, the daily allowance, and every pie slice size are all 0. -/
theorem summarize_zero_budget (content : String) (today : Date) (stdin : List String) :
    (totalSpent (readLoop (pyLines content)).1 ≠ 0 →
      summarizeContent content 0 today stdin = .zeroDivError) ∧
    (totalSpent (readLoop (pyLines content)).1 = 0 →
      ∃ rep, summarizeContent content 0 today stdin = .report rep ∧
        rep.pcts = rep.amount_by_cat.map (fun p => (p.1, (0 : ℚ))) ∧
        rep.remaining_pct = 0 ∧
        rep.daily = 0 ∧
        ∀ labels sizes, rep.pie = some (labels, sizes) →
          sizes = List.replicate (rep.amount_by_cat.length + 1) (0 : ℚ)) := by
  constructor
  · intro htot
    unfold summarizeContent
    dsimp only
    rw [catPcts_budget_zero (aggregate_ne_nil (totalSpent_ne_zero_ne_nil htot)) htot]
  · intro htot
    unfold summarizeContent
    dsimp only
    rw [htot, catPcts_total_zero]
    refine ⟨_, rfl, rfl, ?_, ?_, ?_⟩
    · show (if (0 : ℚ) ≠ 0 then ((0 : ℚ) - 0) / 0 * 100 else (0 : ℚ)) = 0
      rw [if_neg (by norm_num)]
    · show (if daysInMonth today.year today.month - today.day ≠ 0 then
          ((0 : ℚ) - 0) / ((daysInMonth today.year today.month - today.day : ℕ) : ℚ)
        else 0) = 0
      split
      · norm_num
      · rfl
    · intro labels sizes hpie
      dsimp only at hpie
      split at hpie
      · split at hpie
        · rw [visual_summary_spec] at hpie
          injection hpie with hpie
          have h2 := congrArg Prod.snd hpie
          dsimp only at h2
          rw [← h2]
          rw [if_neg (by norm_num : ¬ (0 : ℚ) ≠ 0)]
          rw [List.replicate_succ]
          congr 1
          · simp [List.map_const']
        · exact Option.noConfusion hpie
      · exact Option.noConfusion hpie

/-- Counterexample to C1 as stated: with budget 0 and the single record
`2025-06-01,Coffee,50,Food`, `summarize` raises `ZeroDivisionError` (line
196 divides `amt / budget` guarded by `total_spent` instead of `budget`)
rather than reporting percentages of 0, and its daily allowance would not be
0 either. -/
theorem summarize_zero_budget_cex :
    (summarize [("expenses_2025-06.csv", "2025-06-01,Coffee,50,Food\n")]
        "expenses_2025-06.csv" 0 ⟨2025, 6, 15⟩ []).1 = .zeroDivError := by
  have h1 : (summarize [("expenses_2025-06.csv", "2025-06-01,Coffee,50,Food\n")]
      "expenses_2025-06.csv" 0 ⟨2025, 6, 15⟩ []).1 =
      summarizeContent "2025-06-01,Coffee,50,Food\n" 0 ⟨2025, 6, 15⟩ [] := rfl
  rw [h1]
  unfold summarizeContent
  dsimp only
  have hrec : (readLoop (pyLines "2025-06-01,Coffee,50,Food\n")).1 =
      [⟨"Coffee", "Food", ((50 : ℕ) : ℚ)⟩] := rfl
  rw [hrec]
  have htot : totalSpent [(⟨"Coffee", "Food", ((50 : ℕ) : ℚ)⟩ : Expense)] = 50 := by
    rw [totalSpent]
    simp
  rw [htot]
  rw [catPcts_budget_zero (by decide) (by norm_num)]

/-- Witness for C1 (amended): the nonzero-total branch at a concrete store. -/
theorem summarize_zero_budget_witness :
    summarizeContent "2025-06-01,Tea,7,Food\n" 0 ⟨2025, 6, 10⟩ [] = .zeroDivError := by
  refine (summarize_zero_budget "2025-06-01,Tea,7,Food\n" ⟨2025, 6, 10⟩ []).1 ?_
  have hrec : (readLoop (pyLines "2025-06-01,Tea,7,Food\n")).1 =
      [⟨"Tea", "Food", ((7 : ℕ) : ℚ)⟩] := rfl
  rw [hrec, totalSpent]
  simp

end ExpenseTracker
